import Mathlib

/-!
Verification of the harvest-diff-download pipeline in src/main.py.

The Python source is shallowly embedded: strings are Lean String values
(lists of characters), the Python substring test x in s and the method
s.replace(old, new) are modeled by structurally recursive functions on
List Char, the network and the filesystem are modeled as explicit oracles
and state threaded through the functions, and raised Python exceptions
are modeled with Except.
-/

set_option maxRecDepth 10000

/-! ### Python string primitives -/

/-- Boolean test that the first list is a prefix of the second
(character-wise equality). -/
def pyPre : List Char → List Char → Bool
  | [], _ => true
  | _ :: _, [] => false
  | a :: u, b :: v => a == b && pyPre u v

/-- Python substring test: pat occurs contiguously somewhere in the list.
This is the semantics of the Python expression pat in s. -/
def pyIn (pat : List Char) : List Char → Bool
  | [] => pyPre pat []
  | c :: rest => pyPre pat (c :: rest) || pyIn pat rest

/-- Python substring test on String: the expression pat in s. -/
def strIn (pat s : String) : Bool := pyIn pat.data s.data

/-- Worker for Python str.replace: replaces the leftmost-first,
non-overlapping occurrences of p by q.  The counter k counts characters
still to be skipped because they belong to an occurrence of p that was
already matched and replaced. -/
def replAux (p q : List Char) : Nat → List Char → List Char
  | _, [] => []
  | 0, c :: rest =>
      if p ≠ [] ∧ pyPre p (c :: rest) = true then
        q ++ replAux p q (p.length - 1) rest
      else
        c :: replAux p q 0 rest
  | k + 1, _ :: rest => replAux p q k rest

/-- Python s.replace(p, q) on character lists (for a non-empty pattern p):
all non-overlapping occurrences of p, scanned left to right, are replaced
by q. -/
def replList (p q s : List Char) : List Char := replAux p q 0 s

/-- Python s.replace(old, new) on String (for a non-empty pattern). -/
def pyReplace (s old new : String) : String := ⟨replList old.data new.data s.data⟩

/-! ### The link extractor (src/main.py, parse_urls, lines 48-65) -/

/-- Lines 59-61 of src/main.py: the per-URL normalization performed by
parse_urls on a retained URL.  When the URL contains the substring pdf it
is rewritten by full_url.replace(".pdf", "").replace("pdf", "abs");
otherwise it is returned unchanged. -/
def normalizeUrl (full_url : String) : String :=
  if strIn "pdf" full_url then
    pyReplace (pyReplace full_url ".pdf" "") "pdf" "abs"
  else
    full_url

/-- Adding an element to a Python set modeled as a duplicate-free list:
append when absent. -/
def addUrl (urls : List String) (u : String) : List String :=
  if u ∈ urls then urls else urls ++ [u]

/-- src/main.py lines 48-65, parse_urls: a tweet is modeled by the list of
expanded URLs of its URL entities.  A URL is retained exactly when it
contains the substring arxiv, and a retained URL is normalized by
normalizeUrl before being added to the result set. -/
def parse_urls (tweet : List String) : List String :=
  tweet.foldl
    (fun urls full_url =>
      if strIn "arxiv" full_url then addUrl urls (normalizeUrl full_url)
      else urls)
    []

/-- The extractor's whole-URL normalization as a single function:
none when the URL is discarded (no arxiv substring), otherwise the
normalized candidate key.  This packages the retain-plus-rewrite logic of
parse_urls for one URL. -/
def normOpt (u : String) : Option String :=
  if strIn "arxiv" u then some (normalizeUrl u) else none

/-- src/main.py lines 68-79, get_tweets: union of parse_urls over the
fetched feed, where the feed is the list of liked tweets, each modeled by
its list of expanded URLs. -/
def get_tweets (feed : List (List String)) : List String :=
  feed.foldl (fun tweets tw => (parse_urls tw).foldl addUrl tweets) []

/-! ### Lemmas about pyPre, pyIn and replList -/

theorem pyPre_nil (l : List Char) : pyPre [] l = true := by cases l <;> rfl

theorem pyIn_nil (l : List Char) : pyIn [] l = true := by
  cases l with
  | nil => rfl
  | cons c rest => simp [pyIn, pyPre_nil]

theorem replList_nil (p q : List Char) : replList p q [] = [] := rfl

theorem replAux_succ (p q : List Char) (k : Nat) (c : Char) (rest : List Char) :
    replAux p q (k + 1) (c :: rest) = replAux p q k rest := rfl

theorem replAux_drop (p q : List Char) :
    ∀ (k : Nat) (l : List Char), replAux p q k l = replList p q (l.drop k) := by
  intro k l
  induction l generalizing k with
  | nil => cases k <;> rfl
  | cons c rest ih =>
    cases k with
    | zero => rfl
    | succ k => rw [replAux_succ, ih k, List.drop_succ_cons]

theorem replList_cons_pos (p q : List Char) {c : Char} {rest : List Char}
    (h1 : p ≠ []) (h2 : pyPre p (c :: rest) = true) :
    replList p q (c :: rest) = q ++ replList p q ((c :: rest).drop p.length) := by
  obtain ⟨p0, p', rfl⟩ : ∃ p0 p', p = p0 :: p' := by
    cases p with
    | nil => exact absurd rfl h1
    | cons a b => exact ⟨a, b, rfl⟩
  show replAux (p0 :: p') q 0 (c :: rest) = _
  rw [show replAux (p0 :: p') q 0 (c :: rest) =
      if (p0 :: p') ≠ [] ∧ pyPre (p0 :: p') (c :: rest) = true then
        q ++ replAux (p0 :: p') q ((p0 :: p').length - 1) rest
      else c :: replAux (p0 :: p') q 0 rest from rfl]
  rw [if_pos ⟨h1, h2⟩, replAux_drop]
  simp [List.length_cons]

theorem replList_cons_neg (p q : List Char) {c : Char} {rest : List Char}
    (h : ¬ (p ≠ [] ∧ pyPre p (c :: rest) = true)) :
    replList p q (c :: rest) = c :: replList p q rest := by
  show replAux p q 0 (c :: rest) = _
  rw [show replAux p q 0 (c :: rest) =
      if p ≠ [] ∧ pyPre p (c :: rest) = true then
        q ++ replAux p q (p.length - 1) rest
      else c :: replAux p q 0 rest from rfl]
  rw [if_neg h]
  rfl

theorem pyIn_append_right (w X : List Char) (h : pyIn w X = true) :
    ∀ r : List Char, pyIn w (r ++ X) = true := by
  intro r
  induction r with
  | nil => simpa using h
  | cons a r ih => simp [pyIn, ih]

theorem pyIn_append_left (w0 : Char) (w X : List Char) :
    ∀ r : List Char, w0 ∉ r → pyIn (w0 :: w) (r ++ X) = pyIn (w0 :: w) X := by
  intro r
  induction r with
  | nil => intro _; rfl
  | cons a r ih =>
    intro hw
    have ha : (w0 == a) = false :=
      beq_eq_false_iff_ne.mpr fun h => hw (h ▸ List.mem_cons_self a r)
    simp [pyIn, pyPre, ha, ih (fun h => hw (List.mem_cons_of_mem a h))]

theorem pyIn_drop_of_pre (w : List Char) (hw : w ≠ []) :
    ∀ (u t : List Char), pyPre u t = true → (∀ c ∈ u, c ∉ w) →
      pyIn w t = true → pyIn w (t.drop u.length) = true := by
  intro u
  induction u with
  | nil => intro t _ _ h; simpa using h
  | cons a u ih =>
    intro t hpre hdisj hin
    cases t with
    | nil => simp [pyPre] at hpre
    | cons b t =>
      have hab : (a == b) = true ∧ pyPre u t = true := by
        simpa [pyPre, Bool.and_eq_true] using hpre
      have hb : a = b := by simpa [beq_iff_eq] using hab.1
      have hhead : pyPre w (b :: t) = false := by
        cases w with
        | nil => exact absurd rfl hw
        | cons w0 w' =>
          have hne : w0 ≠ b := by
            intro h
            exact hdisj a (List.mem_cons_self a u)
              (by rw [hb, ← h]; exact List.mem_cons_self w0 w')
          simp [pyPre, beq_eq_false_iff_ne.mpr hne]
      have hin' : pyIn w t = true := by
        have h2 := hin
        simp only [pyIn, hhead, Bool.false_or] at h2
        exact h2
      simpa using ih t hab.2 (fun c hc => hdisj c (List.mem_cons_of_mem a hc)) hin'

theorem pyPre_replList_of_disjoint (p q : List Char) (hp : p ≠ []) :
    ∀ (w t : List Char), (∀ c ∈ w, c ∉ p) → pyPre w t = true →
      pyPre w (replList p q t) = true := by
  intro w
  induction w with
  | nil => intro t _ _; exact pyPre_nil _
  | cons d w ih =>
    intro t hdisj hpre
    cases t with
    | nil => simp [pyPre] at hpre
    | cons c t =>
      have hsplit : (d == c) = true ∧ pyPre w t = true := by
        simpa [pyPre, Bool.and_eq_true] using hpre
      have hdc : d = c := by simpa [beq_iff_eq] using hsplit.1
      have hnot : pyPre p (c :: t) = false := by
        cases p with
        | nil => exact absurd rfl hp
        | cons p0 p' =>
          have hne : p0 ≠ c := by
            intro h
            exact hdisj d (List.mem_cons_self d w)
              (by rw [hdc, ← h]; exact List.mem_cons_self p0 p')
          simp [pyPre, beq_eq_false_iff_ne.mpr hne]
      rw [replList_cons_neg p q (by simp [hnot])]
      have htail : pyPre w (replList p q t) = true :=
        ih t (fun x hx => hdisj x (List.mem_cons_of_mem d hx)) hsplit.2
      simp [pyPre, hdc, htail]

theorem pyPre_of_pyPre_replList (p q : List Char) (hq : q ≠ []) :
    ∀ (t w : List Char), (∀ c ∈ w, c ∉ q) → pyPre w (replList p q t) = true →
      pyPre w t = true := by
  intro t
  induction t with
  | nil => intro w _ h; simpa [replList_nil] using h
  | cons c t ih =>
    intro w hdisj hpre
    by_cases hcond : p ≠ [] ∧ pyPre p (c :: t) = true
    · rw [replList_cons_pos p q hcond.1 hcond.2] at hpre
      cases w with
      | nil => exact pyPre_nil _
      | cons w0 w' =>
        cases q with
        | nil => exact absurd rfl hq
        | cons q0 q' =>
          exfalso
          have hne : w0 ≠ q0 := fun h =>
            hdisj w0 (List.mem_cons_self w0 w') (h ▸ List.mem_cons_self q0 q')
          simp [pyPre, beq_eq_false_iff_ne.mpr hne] at hpre
    · rw [replList_cons_neg p q hcond] at hpre
      cases w with
      | nil => exact pyPre_nil _
      | cons w0 w' =>
        have hsplit : (w0 == c) = true ∧ pyPre w' (replList p q t) = true := by
          simpa [pyPre, Bool.and_eq_true] using hpre
        have htail : pyPre w' t = true :=
          ih w' (fun x hx => hdisj x (List.mem_cons_of_mem w0 hx)) hsplit.2
        simp [pyPre, hsplit.1, htail]

theorem pyIn_self_replList_aux (p q : List Char) (hp : p ≠ []) (hq : q ≠ [])
    (hdisj : ∀ c ∈ p, c ∉ q) :
    ∀ (n : Nat) (t : List Char), t.length ≤ n →
      pyIn p (replList p q t) = false := by
  intro n
  induction n with
  | zero =>
    intro t ht
    have hnil : t = [] := List.eq_nil_of_length_eq_zero (Nat.le_zero.mp ht)
    subst hnil
    cases p with
    | nil => exact absurd rfl hp
    | cons p0 p' => rfl
  | succ n ih =>
    intro t ht
    cases t with
    | nil =>
      cases p with
      | nil => exact absurd rfl hp
      | cons p0 p' => rfl
    | cons c rest =>
      by_cases hcond : p ≠ [] ∧ pyPre p (c :: rest) = true
      · rw [replList_cons_pos p q hcond.1 hcond.2]
        obtain ⟨p0, p', rfl⟩ : ∃ p0 p', p = p0 :: p' := by
          cases p with
          | nil => exact absurd rfl hp
          | cons a b => exact ⟨a, b, rfl⟩
        rw [pyIn_append_left p0 p' _ q (hdisj p0 (List.mem_cons_self p0 p'))]
        apply ih
        have hlen : (c :: rest).length ≤ n + 1 := ht
        simp only [List.length_drop, List.length_cons] at *
        omega
      · rw [replList_cons_neg p q hcond]
        have hpre : pyPre p (c :: rest) = false := by
          rcases Bool.eq_false_or_eq_true (pyPre p (c :: rest)) with h | h
          · exact absurd ⟨hp, h⟩ hcond
          · exact h
        have hrest : pyIn p (replList p q rest) = false := by
          apply ih
          have hlen : (c :: rest).length ≤ n + 1 := ht
          simp only [List.length_cons] at hlen
          omega
        have hhead : pyPre p (c :: replList p q rest) = false := by
          obtain ⟨p0, p', rfl⟩ : ∃ p0 p', p = p0 :: p' := by
            cases p with
            | nil => exact absurd rfl hp
            | cons a b => exact ⟨a, b, rfl⟩
          rcases Bool.eq_false_or_eq_true
            (pyPre (p0 :: p') (c :: replList (p0 :: p') q rest)) with h | h
          swap
          · exact h
          · exfalso
            have hsplit : (p0 == c) = true ∧
                pyPre p' (replList (p0 :: p') q rest) = true := by
              simpa [pyPre, Bool.and_eq_true] using h
            have hp' : pyPre p' rest = true :=
              pyPre_of_pyPre_replList (p0 :: p') q hq rest p'
                (fun x hx => hdisj x (List.mem_cons_of_mem p0 hx)) hsplit.2
            have hfull : pyPre (p0 :: p') (c :: rest) = true := by
              simp [pyPre, hsplit.1, hp']
            exact Bool.noConfusion (hfull.symm.trans hpre)
        simp [pyIn, hhead, hrest]

theorem pyIn_self_replList (p q : List Char) (hp : p ≠ []) (hq : q ≠ [])
    (hdisj : ∀ c ∈ p, c ∉ q) (t : List Char) :
    pyIn p (replList p q t) = false :=
  pyIn_self_replList_aux p q hp hq hdisj t.length t (Nat.le_refl _)

theorem pyIn_replList_of_disjoint_aux (p q : List Char) (hp : p ≠ [])
    (w : List Char) (hdisj : ∀ c ∈ w, c ∉ p) :
    ∀ (n : Nat) (t : List Char), t.length ≤ n → pyIn w t = true →
      pyIn w (replList p q t) = true := by
  intro n
  induction n with
  | zero =>
    intro t ht hin
    have hnil : t = [] := List.eq_nil_of_length_eq_zero (Nat.le_zero.mp ht)
    subst hnil
    simpa [replList_nil] using hin
  | succ n ih =>
    intro t ht hin
    cases t with
    | nil => simpa [replList_nil] using hin
    | cons c rest =>
      have hlen : rest.length ≤ n := by
        have h2 : (c :: rest).length ≤ n + 1 := ht
        simp only [List.length_cons] at h2
        omega
      by_cases hcond : p ≠ [] ∧ pyPre p (c :: rest) = true
      · rw [replList_cons_pos p q hcond.1 hcond.2]
        cases w with
        | nil => exact pyIn_nil _
        | cons w0 w' =>
          have hdropin : pyIn (w0 :: w') ((c :: rest).drop p.length) = true :=
            pyIn_drop_of_pre (w0 :: w') (by simp) p (c :: rest) hcond.2
              (fun x hx hxw => hdisj x hxw hx) hin
          have hdroplen : ((c :: rest).drop p.length).length ≤ n := by
            simp only [List.length_drop, List.length_cons]
            obtain ⟨p0, p', rfl⟩ : ∃ p0 p', p = p0 :: p' := by
              cases p with
              | nil => exact absurd rfl hp
              | cons a b => exact ⟨a, b, rfl⟩
            simp only [List.length_cons]
            omega
          exact pyIn_append_right _ _ (ih _ hdroplen hdropin) q
      · rw [replList_cons_neg p q hcond]
        cases hpw : pyPre w (c :: rest) with
        | false =>
          have hrest : pyIn w rest = true := by
            simpa [pyIn, hpw] using hin
          have hres := ih rest hlen hrest
          simp [pyIn, hres]
        | true =>
          cases w with
          | nil => exact pyIn_nil _
          | cons w0 w' =>
            have hsplit : (w0 == c) = true ∧ pyPre w' rest = true := by
              simpa [pyPre, Bool.and_eq_true] using hpw
            have htail : pyPre w' (replList p q rest) = true :=
              pyPre_replList_of_disjoint p q hp w' rest
                (fun x hx => hdisj x (List.mem_cons_of_mem w0 hx)) hsplit.2
            simp [pyIn, pyPre, hsplit.1, htail]

theorem pyIn_replList_of_disjoint (p q : List Char) (hp : p ≠ [])
    (w : List Char) (hdisj : ∀ c ∈ w, c ∉ p) (t : List Char)
    (hin : pyIn w t = true) : pyIn w (replList p q t) = true :=
  pyIn_replList_of_disjoint_aux p q hp w hdisj t.length t (Nat.le_refl _) hin

/-! ### Idempotence of the extractor normalization -/

theorem strIn_arxiv_normalizeUrl (u : String) (h : strIn "arxiv" u = true) :
    strIn "arxiv" (normalizeUrl u) = true := by
  unfold normalizeUrl
  by_cases hpdf : strIn "pdf" u = true
  · rw [if_pos hpdf]
    show pyIn "arxiv".data
      (replList "pdf".data "abs".data (replList ".pdf".data "".data u.data)) = true
    apply pyIn_replList_of_disjoint "pdf".data "abs".data (by decide)
      "arxiv".data (by decide)
    apply pyIn_replList_of_disjoint ".pdf".data "".data (by decide)
      "arxiv".data (by decide)
    exact h
  · rw [if_neg hpdf]
    exact h

theorem strIn_pdf_normalizeUrl (u : String) (h : strIn "pdf" u = true) :
    strIn "pdf" (normalizeUrl u) = false := by
  unfold normalizeUrl
  rw [if_pos h]
  show pyIn "pdf".data
    (replList "pdf".data "abs".data (replList ".pdf".data "".data u.data)) = false
  exact pyIn_self_replList "pdf".data "abs".data (by decide) (by decide) (by decide) _

theorem normalizeUrl_of_not_pdf (v : String) (h : strIn "pdf" v = false) :
    normalizeUrl v = v := by
  unfold normalizeUrl
  rw [if_neg (by simp [h])]

theorem normalizeUrl_idem (u : String) :
    normalizeUrl (normalizeUrl u) = normalizeUrl u := by
  by_cases h : strIn "pdf" u = true
  · exact normalizeUrl_of_not_pdf (normalizeUrl u) (strIn_pdf_normalizeUrl u h)
  · have h0 : strIn "pdf" u = false := Bool.not_eq_true _ ▸ h
    rw [normalizeUrl_of_not_pdf u h0, normalizeUrl_of_not_pdf u h0]

theorem normOpt_of_arxiv (u : String) (h : strIn "arxiv" u = true) :
    normOpt u = some (normalizeUrl u) := by
  unfold normOpt
  rw [if_pos h]

/-! ### Membership in the extractor output -/

theorem mem_addUrl (urls : List String) (u x : String) :
    x ∈ addUrl urls u ↔ x ∈ urls ∨ x = u := by
  unfold addUrl
  by_cases h : u ∈ urls
  · rw [if_pos h]
    constructor
    · exact Or.inl
    · rintro (hx | rfl)
      · exact hx
      · exact h
  · rw [if_neg h]
    simp

theorem mem_parse_urls_foldl (tweet : List String) :
    ∀ (acc : List String) (v : String),
      (v ∈ tweet.foldl
        (fun urls full_url =>
          if strIn "arxiv" full_url then addUrl urls (normalizeUrl full_url)
          else urls)
        acc)
      ↔ v ∈ acc ∨ ∃ u, u ∈ tweet ∧ strIn "arxiv" u = true ∧ v = normalizeUrl u := by
  induction tweet with
  | nil => simp
  | cons full_url tweet ih =>
    intro acc v
    rw [List.foldl_cons, ih]
    by_cases h : strIn "arxiv" full_url = true
    · rw [if_pos h, mem_addUrl]
      constructor
      · rintro ((hv | rfl) | ⟨u, hu, hau, rfl⟩)
        · exact Or.inl hv
        · exact Or.inr ⟨full_url, List.mem_cons_self _ _, h, rfl⟩
        · exact Or.inr ⟨u, List.mem_cons_of_mem _ hu, hau, rfl⟩
      · rintro (hv | ⟨u, hu, hau, rfl⟩)
        · exact Or.inl (Or.inl hv)
        · rcases List.mem_cons.mp hu with rfl | hu'
          · exact Or.inl (Or.inr rfl)
          · exact Or.inr ⟨u, hu', hau, rfl⟩
    · rw [if_neg h]
      constructor
      · rintro (hv | ⟨u, hu, hau, rfl⟩)
        · exact Or.inl hv
        · exact Or.inr ⟨u, List.mem_cons_of_mem _ hu, hau, rfl⟩
      · rintro (hv | ⟨u, hu, hau, rfl⟩)
        · exact Or.inl hv
        · rcases List.mem_cons.mp hu with rfl | hu'
          · exact absurd hau h
          · exact Or.inr ⟨u, hu', hau, rfl⟩

theorem mem_parse_urls (tweet : List String) (v : String) :
    v ∈ parse_urls tweet ↔
      ∃ u, u ∈ tweet ∧ strIn "arxiv" u = true ∧ v = normalizeUrl u := by
  unfold parse_urls
  rw [mem_parse_urls_foldl]
  simp

/-! ### Claims C5, C6, C10 on the extractor -/

/-- C5 counterexample: the spec scenario uses the URL
https://example.org/pdf/1234.pdf, but parse_urls retains a URL only when
it contains the substring arxiv, so this URL is discarded: extraction
produces the empty set, not the abstract-page link. -/
theorem c5_counterexample :
    parse_urls ["https://example.org/pdf/1234.pdf"] = [] ∧
      "https://example.org/abs/1234" ∉ parse_urls ["https://example.org/pdf/1234.pdf"] := by
  constructor
  · decide
  · decide

/-- C5 amended: for an item whose single embedded URL is
https://arxiv.org/pdf/1234.pdf (a direct-file URL on the target domain,
which the code recognizes by the substring arxiv), extraction produces
exactly the normalized candidate link https://arxiv.org/abs/1234. -/
theorem c5_amended :
    parse_urls ["https://arxiv.org/pdf/1234.pdf"] = ["https://arxiv.org/abs/1234"] := by
  decide

/-- C6: the extractor normalization (retain when the URL contains arxiv,
rewrite a pdf URL to abstract form) is a pure function and idempotent:
applying it to its own output yields the same result, and in particular a
direct-file link and its abstract-page link map to the same candidate key. -/
theorem c6_normalize_idempotent :
    (∀ u : String, (normOpt u).bind normOpt = normOpt u) ∧
      normOpt "https://arxiv.org/pdf/1234.pdf" = normOpt "https://arxiv.org/abs/1234" := by
  constructor
  · intro u
    cases h : strIn "arxiv" u with
    | false =>
      have h0 : normOpt u = none := by unfold normOpt; rw [if_neg (by simp [h])]
      rw [h0]
      rfl
    | true =>
      have h1 : normOpt u = some (normalizeUrl u) := normOpt_of_arxiv u h
      have h2 : normOpt (normalizeUrl u) = some (normalizeUrl (normalizeUrl u)) :=
        normOpt_of_arxiv _ (strIn_arxiv_normalizeUrl u h)
      calc (normOpt u).bind normOpt
          = normOpt (normalizeUrl u) := by rw [h1]; rfl
        _ = some (normalizeUrl (normalizeUrl u)) := h2
        _ = some (normalizeUrl u) := by rw [normalizeUrl_idem]
        _ = normOpt u := h1.symm
  · decide

/-- C10: extraction retains an embedded URL exactly when the string arxiv
occurs as a substring anywhere in its expanded URL (no host or domain
check), and a retained URL containing no pdf marker is returned verbatim,
even when it is not in abstract-page form. -/
theorem c10_retention :
    (∀ (tweet : List String) (v : String),
        v ∈ parse_urls tweet ↔
          ∃ u, u ∈ tweet ∧ strIn "arxiv" u = true ∧ v = normalizeUrl u)
    ∧ (∀ u : String, strIn "arxiv" u = true → strIn "pdf" u = false →
        normalizeUrl u = u) := by
  constructor
  · exact mem_parse_urls
  · intro u _ hpdf
    exact normalizeUrl_of_not_pdf u hpdf

/-- C10 witness: the URL https://evil.example/arxiv-mirror/1807.03341 has
arxiv only in its path, contains no pdf marker and is not in abstract-page
form, yet it is retained verbatim by extraction. -/
theorem c10_witness :
    strIn "arxiv" "https://evil.example/arxiv-mirror/1807.03341" = true ∧
      strIn "pdf" "https://evil.example/arxiv-mirror/1807.03341" = false ∧
      strIn "abs" "https://evil.example/arxiv-mirror/1807.03341" = false ∧
      normalizeUrl "https://evil.example/arxiv-mirror/1807.03341" =
        "https://evil.example/arxiv-mirror/1807.03341" ∧
      "https://evil.example/arxiv-mirror/1807.03341" ∈
        parse_urls ["https://evil.example/arxiv-mirror/1807.03341"] :=
  ⟨by decide, by decide, by decide,
    c10_retention.2 "https://evil.example/arxiv-mirror/1807.03341"
      (by decide) (by decide),
    (c10_retention.1 ["https://evil.example/arxiv-mirror/1807.03341"] _).mpr
      ⟨_, List.mem_cons_self _ _, by decide,
        (c10_retention.2 _ (by decide) (by decide)).symm⟩⟩

/-! ### Runtime model: exceptions, network oracles, state -/

/-- Python exceptions that can escape the functions of src/main.py. -/
inductive Exn where
  /-- an exception raised by requests (connection error, timeout, or an
  error while iterating a streamed response body) -/
  | requestException
  /-- soup.find("title") returned None and .text was taken on it
  (src/main.py line 90) -/
  | attributeError
  /-- the assert "abs" in arvix_link failed (src/main.py line 86) -/
  | assertionError
  /-- pickle.load failed on a truncated or corrupt cache file
  (src/main.py line 35) -/
  | unpicklingError
deriving DecidableEq

/-- Network calls issued by the title resolver and the artifact
downloader (ghost log used to state the no-network-call claims). -/
inductive NetEvent where
  | titleGet (url : String)
  | pdfGet (url : String)
deriving DecidableEq

/-- Result of the streaming GET for the pdf file: the status code and the
body as the list of chunks yielded by iterating the response; a none chunk
models a transport failure raised while streaming the body. -/
structure PdfResp where
  status : Nat
  chunks : List (Option String)

/-- The external world of one run: the feed (each liked tweet modeled by
its list of expanded URLs), the response to the GET of an abstract page
(none models a raised transport error; otherwise a status code, which the
code never inspects, and the text of the title element if the page has
one), the response to the streaming GET of a pdf URL (none models a raised
transport error), and the configured pdf folder. -/
structure Env where
  feed : List (List String)
  titlePage : String → Option (Nat × Option String)
  pdfResp : String → Option PdfResp
  pdf_folder : String

/-- Mutable state threaded through a run: the filesystem as a map from
paths to file contents, the ghost log of network calls, and the ghost list
of links on which download_arvix_pdf was invoked. -/
structure St where
  fs : String → Option String
  log : List NetEvent
  attempts : List String

/-- The empty initial state: no files, no events. -/
def st0 : St := { fs := fun _ => none, log := [], attempts := [] }

/-- Writing one file: the map is updated at one path. -/
def fsUpdate (fs : String → Option String) (p v : String) : String → Option String :=
  fun x => if x = p then some v else fs x

/-! ### The processed-set store (src/main.py, read_cache and save_cache) -/

/-- On-disk states of the cache file.  The record constructor is a
complete pickled set of processed links (modeled as a duplicate-free
list); truncated is a file left incomplete by an interrupted write. -/
inductive CacheDisk where
  | absent
  | record (urls : List String)
  | truncated
deriving DecidableEq

/-- src/main.py lines 31-37, read_cache: returns the pickled set when the
file exists, the empty set when it does not; pickle.load raises on a
truncated file, which is modeled as an error. -/
def read_cache : CacheDisk → Except Exn (List String)
  | .absent => .ok []
  | .record urls => .ok urls
  | .truncated => .error .unpicklingError

/-- src/main.py lines 40-45, save_cache: the completed write replaces the
on-disk record with the new set. -/
def save_cache (processed_tweets : List String) : CacheDisk := .record processed_tweets

/-- Crash states of save_cache, src/main.py line 45:
pickle.dump(processed_tweets, open(CACHE_PATH, "wb")).  Before the call
the disk holds the old record; open(CACHE_PATH, "wb") truncates (or
creates) the file, leaving an empty file; only when pickle.dump has
written the whole record does the disk hold the new record.  There is no
write-then-rename step, so an interruption between the truncation and the
completion of the dump leaves a truncated file on disk. -/
def save_cache_crash_states (old : CacheDisk) (processed_tweets : List String) :
    List CacheDisk :=
  [old, .truncated, .record processed_tweets]

/-! ### The title resolver (src/main.py, get_arvix_title, lines 82-91) -/

/-- Python text.split("]")[-1]: the part of the list after the last
closing bracket (the whole list when there is none). -/
def afterLastBracket (l : List Char) : List Char :=
  (l.reverse.takeWhile (fun c => c ≠ ']')).reverse

/-- Python str.strip(): drop whitespace from both ends. -/
def pyStrip (l : List Char) : List Char :=
  ((l.dropWhile Char.isWhitespace).reverse.dropWhile Char.isWhitespace).reverse

/-- Line 90 of src/main.py: soup.find("title").text.split("]")[-1].strip(),
applied to the text of the title element. -/
def stripTitle (s : String) : String := ⟨pyStrip (afterLastBracket s.data)⟩

/-- src/main.py lines 82-91, get_arvix_title: asserts "abs" in arvix_link
(an AssertionError propagates when it fails, before any network call),
then issues one GET of the abstract page (a raised transport error
propagates), parses the markup for a title element (when none is present,
.text on None raises AttributeError) and strips the leading bracketed
prefix and surrounding whitespace.  The status code of the response is
never inspected. -/
def get_arvix_title (env : Env) (st : St) (arvix_link : String) :
    St × Except Exn String :=
  if strIn "abs" arvix_link then
    let st1 : St := { st with log := st.log ++ [.titleGet arvix_link] }
    match env.titlePage arvix_link with
    | none => (st1, .error .requestException)
    | some (_, none) => (st1, .error .attributeError)
    | some (_, some titleText) => (st1, .ok (stripTitle titleText))
  else
    (st, .error .assertionError)

/-- The loop for chunk in response: f.write(chunk) of src/main.py lines
114-116: each chunk is appended to the file at the destination path; a
transport failure raised while iterating the response aborts the loop,
and the with block only closes the handle, leaving the partially written
file on disk. -/
def writeChunks (path : String) :
    (String → Option String) → List (Option String) →
      (String → Option String) × Option Exn
  | fs, [] => (fs, none)
  | fs, some chunk :: rest =>
      writeChunks path (fsUpdate fs path (((fs path).getD "") ++ chunk)) rest
  | fs, none :: _ => (fs, some .requestException)

/-- src/main.py lines 94-119, download_arvix_pdf: resolves the title via
get_arvix_title (any exception propagates), derives the file path
pdf_folder/title.pdf from the unsanitized title, derives the pdf URL by
arvix_link.replace("abs", "pdf"), issues the streaming GET (a raised
transport error propagates); on status 200 opens the destination for
writing (truncating or creating it) and writes the body chunk by chunk,
returning True; on any other status returns False without touching the
filesystem.  The ghost attempts field records that the function was
invoked on this link. -/
def download_arvix_pdf (env : Env) (st : St) (arvix_link : String) :
    St × Except Exn Bool :=
  let stA : St := { st with attempts := st.attempts ++ [arvix_link] }
  match get_arvix_title env stA arvix_link with
  | (st1, .error e) => (st1, .error e)
  | (st1, .ok title) =>
    let pdf_file_path := env.pdf_folder ++ "/" ++ title ++ ".pdf"
    let pdf_dl_link := pyReplace arvix_link "abs" "pdf"
    let st2 : St := { st1 with log := st1.log ++ [.pdfGet pdf_dl_link] }
    match env.pdfResp pdf_dl_link with
    | none => (st2, .error .requestException)
    | some response =>
      if response.status = 200 then
        let wres := writeChunks pdf_file_path
          (fsUpdate st2.fs pdf_file_path "") response.chunks
        match wres.2 with
        | none => ({ st2 with fs := wres.1 }, .ok true)
        | some e => ({ st2 with fs := wres.1 }, .error e)
      else
        (st2, .ok false)

/-! ### The orchestrator (src/main.py, main, lines 122-141) -/

/-- Line 129 of src/main.py: the set difference
recent_tweet_set - cached_tweet_set, the candidates to download. -/
def newLinks (env : Env) (cached : List String) : List String :=
  (get_tweets env.feed).filter (fun u => decide (u ∉ cached))

/-- The for loop of src/main.py lines 131-138: each new link is passed to
download_arvix_pdf; on True the link is added to the in-memory cached set,
on False it is left out, and a raised exception propagates out of the
loop, abandoning the remaining links and the accumulated set. -/
def mainLoop (env : Env) : St → List String → List String →
    St × Except Exn (List String)
  | st, cached, [] => (st, .ok cached)
  | st, cached, new_tweet :: rest =>
    match download_arvix_pdf env st new_tweet with
    | (st1, .ok true) => mainLoop env st1 (addUrl cached new_tweet) rest
    | (st1, .ok false) => mainLoop env st1 cached rest
    | (st1, .error e) => (st1, .error e)

/-- src/main.py lines 122-141, main: fetch the recent links, load the
cached set, diff, attempt each new link, add successes to the set, and
save the set.  An exception raised anywhere propagates and save_cache is
never reached, leaving the on-disk record unchanged. -/
def main' (env : Env) (st : St) (disk : CacheDisk) :
    St × CacheDisk × Except Exn Unit :=
  match read_cache disk with
  | .error e => (st, disk, .error e)
  | .ok cached_tweet_set =>
    match mainLoop env st cached_tweet_set (newLinks env cached_tweet_set) with
    | (st1, .ok cached1) => (st1, save_cache cached1, .ok ())
    | (st1, .error e) => (st1, disk, .error e)

/-! ### Pure projections of the outcomes -/

/-- The outcome of get_arvix_title as a function of the environment only
(the state threading never influences the result). -/
def titleResult (env : Env) (arvix_link : String) : Except Exn String :=
  if strIn "abs" arvix_link then
    match env.titlePage arvix_link with
    | none => .error .requestException
    | some (_, none) => .error .attributeError
    | some (_, some titleText) => .ok (stripTitle titleText)
  else
    .error .assertionError

/-- Whether iterating the chunk list raises. -/
def chunksErr : List (Option String) → Option Exn
  | [] => none
  | some _ :: rest => chunksErr rest
  | none :: _ => some .requestException

/-- Concatenation of the chunks of a fully streamed body. -/
def concatChunks : List (Option String) → String
  | [] => ""
  | chunk :: rest => chunk.getD "" ++ concatChunks rest

/-- The outcome of download_arvix_pdf as a function of the environment
only: ok true is a download that completed and reported success, ok false
is a reported failure (non-success status), and error is a raised
exception. -/
def attemptResult (env : Env) (arvix_link : String) : Except Exn Bool :=
  match titleResult env arvix_link with
  | .error e => .error e
  | .ok _ =>
    match env.pdfResp (pyReplace arvix_link "abs" "pdf") with
    | none => .error .requestException
    | some response =>
      if response.status = 200 then
        match chunksErr response.chunks with
        | none => .ok true
        | some e => .error e
      else
        .ok false

theorem get_arvix_title_eq (env : Env) (st : St) (l : String) :
    get_arvix_title env st l =
      (if strIn "abs" l then { st with log := st.log ++ [.titleGet l] } else st,
        titleResult env l) := by
  unfold get_arvix_title titleResult
  by_cases h : strIn "abs" l = true
  · simp only [h, if_true]
    cases env.titlePage l with
    | none => rfl
    | some v =>
      rcases v with ⟨status, t⟩
      cases t <;> rfl
  · simp only [Bool.not_eq_true] at h
    simp [h]

theorem writeChunks_snd (path : String) :
    ∀ (chunks : List (Option String)) (fs : String → Option String),
      (writeChunks path fs chunks).2 = chunksErr chunks := by
  intro chunks
  induction chunks with
  | nil => intro fs; rfl
  | cons chunk rest ih =>
    intro fs
    cases chunk with
    | none => rfl
    | some s => exact ih _

theorem download_snd (env : Env) (st : St) (l : String) :
    (download_arvix_pdf env st l).2 = attemptResult env l := by
  unfold download_arvix_pdf attemptResult
  simp only [get_arvix_title_eq]
  cases htr : titleResult env l with
  | error e => rfl
  | ok title =>
    simp only [writeChunks_snd]
    cases hr : env.pdfResp (pyReplace l "abs" "pdf") with
    | none => rfl
    | some response =>
      simp only []
      by_cases hs : response.status = 200
      · simp only [hs, if_true]
        cases hc : chunksErr response.chunks with
        | none => rfl
        | some e => rfl
      · simp [hs]

theorem download_attempts (env : Env) (st : St) (l : String) :
    (download_arvix_pdf env st l).1.attempts = st.attempts ++ [l] := by
  unfold download_arvix_pdf
  simp only [get_arvix_title_eq, writeChunks_snd]
  by_cases habs : strIn "abs" l = true
  all_goals
    first
      | rw [if_pos habs]
      | rw [if_neg habs]
  all_goals
    cases titleResult env l with
    | error e => rfl
    | ok title =>
      cases env.pdfResp (pyReplace l "abs" "pdf") with
      | none => rfl
      | some response =>
        simp only []
        by_cases hs : response.status = 200
        · rw [if_pos hs]
          rcases hc : chunksErr response.chunks with _ | e <;> rfl
        · rw [if_neg hs]

/-! ### Properties of the download loop -/

theorem mainLoop_ok_mem (env : Env) :
    ∀ (links : List String) (st : St) (cached final : List String),
      (mainLoop env st cached links).2 = .ok final →
      ∀ x, x ∈ final ↔ x ∈ cached ∨
        (x ∈ links ∧ attemptResult env x = .ok true) := by
  intro links
  induction links with
  | nil =>
    intro st cached final h x
    have hfc : cached = final := by
      simpa [mainLoop] using h
    subst hfc
    simp
  | cons l rest ih =>
    intro st cached final h x
    rcases hdl : download_arvix_pdf env st l with ⟨st1, r⟩
    have hr : r = attemptResult env l := by
      have h2 := download_snd env st l
      rw [hdl] at h2
      exact h2
    simp only [mainLoop] at h
    rw [hdl] at h
    rcases r with e | b
    · simp only [] at h
      exact absurd h (by simp)
    · cases b with
      | true =>
        simp only [] at h
        have hA : attemptResult env l = .ok true := hr.symm
        rw [ih st1 _ final h x, mem_addUrl]
        constructor
        · rintro ((hx | rfl) | ⟨hxr, hxT⟩)
          · exact Or.inl hx
          · exact Or.inr ⟨List.mem_cons_self _ _, hA⟩
          · exact Or.inr ⟨List.mem_cons_of_mem _ hxr, hxT⟩
        · rintro (hx | ⟨hxm, hxT⟩)
          · exact Or.inl (Or.inl hx)
          · rcases List.mem_cons.mp hxm with rfl | hxr
            · exact Or.inl (Or.inr rfl)
            · exact Or.inr ⟨hxr, hxT⟩
      | false =>
        simp only [] at h
        have hA : attemptResult env l = .ok false := hr.symm
        rw [ih st1 _ final h x]
        constructor
        · rintro (hx | ⟨hxr, hxT⟩)
          · exact Or.inl hx
          · exact Or.inr ⟨List.mem_cons_of_mem _ hxr, hxT⟩
        · rintro (hx | ⟨hxm, hxT⟩)
          · exact Or.inl hx
          · rcases List.mem_cons.mp hxm with rfl | hxr
            · rw [hA] at hxT
              exact absurd hxT (by simp)
            · exact Or.inr ⟨hxr, hxT⟩

theorem mainLoop_ok_of_all (env : Env) :
    ∀ (links : List String) (st : St) (cached : List String),
      (∀ l ∈ links, ∃ b, attemptResult env l = .ok b) →
      ∃ final, (mainLoop env st cached links).2 = .ok final := by
  intro links
  induction links with
  | nil => intro st cached _; exact ⟨cached, rfl⟩
  | cons l rest ih =>
    intro st cached hall
    obtain ⟨b, hb⟩ := hall l (List.mem_cons_self _ _)
    rcases hdl : download_arvix_pdf env st l with ⟨st1, r⟩
    have hr : r = attemptResult env l := by
      have h2 := download_snd env st l
      rw [hdl] at h2
      exact h2
    rw [hb] at hr
    subst hr
    have hall' : ∀ x ∈ rest, ∃ b, attemptResult env x = .ok b :=
      fun x hx => hall x (List.mem_cons_of_mem _ hx)
    cases b with
    | true =>
      obtain ⟨final, hfin⟩ := ih st1 (addUrl cached l) hall'
      exact ⟨final, by simp only [mainLoop]; rw [hdl]; exact hfin⟩
    | false =>
      obtain ⟨final, hfin⟩ := ih st1 cached hall'
      exact ⟨final, by simp only [mainLoop]; rw [hdl]; exact hfin⟩

theorem mainLoop_attempts_of_all (env : Env) :
    ∀ (links : List String) (st : St) (cached : List String),
      (∀ l ∈ links, ∃ b, attemptResult env l = .ok b) →
      (mainLoop env st cached links).1.attempts = st.attempts ++ links := by
  intro links
  induction links with
  | nil => intro st cached _; simp [mainLoop]
  | cons l rest ih =>
    intro st cached hall
    obtain ⟨b, hb⟩ := hall l (List.mem_cons_self _ _)
    rcases hdl : download_arvix_pdf env st l with ⟨st1, r⟩
    have hr : r = attemptResult env l := by
      have h2 := download_snd env st l
      rw [hdl] at h2
      exact h2
    rw [hb] at hr
    subst hr
    have hst1 : st1.attempts = st.attempts ++ [l] := by
      have h2 := download_attempts env st l
      rw [hdl] at h2
      exact h2
    have hall' : ∀ x ∈ rest, ∃ b, attemptResult env x = .ok b :=
      fun x hx => hall x (List.mem_cons_of_mem _ hx)
    cases b with
    | true =>
      simp only [mainLoop]
      rw [hdl]
      simp only []
      rw [ih st1 (addUrl cached l) hall', hst1]
      simp
    | false =>
      simp only [mainLoop]
      rw [hdl]
      simp only []
      rw [ih st1 cached hall', hst1]
      simp

theorem mainLoop_error_head (env : Env) (st : St) (cached : List String)
    (l : String) (rest : List String) (e : Exn)
    (hA : attemptResult env l = .error e) :
    (mainLoop env st cached (l :: rest)).2 = .error e ∧
      (mainLoop env st cached (l :: rest)).1.attempts = st.attempts ++ [l] := by
  rcases hdl : download_arvix_pdf env st l with ⟨st1, r⟩
  have hr : r = attemptResult env l := by
    have h2 := download_snd env st l
    rw [hdl] at h2
    exact h2
  rw [hA] at hr
  subst hr
  have hst1 : st1.attempts = st.attempts ++ [l] := by
    have h2 := download_attempts env st l
    rw [hdl] at h2
    exact h2
  constructor
  · simp only [mainLoop]
    rw [hdl]
  · simp only [mainLoop]
    rw [hdl]
    exact hst1

/-! ### Filesystem effects of the downloader -/

theorem fsUpdate_same (fs : String → Option String) (p v : String) :
    fsUpdate fs p v p = some v := by simp [fsUpdate]

theorem fsUpdate_collapse (fs : String → Option String) (p v w : String) :
    fsUpdate (fsUpdate fs p v) p w = fsUpdate fs p w := by
  funext x
  by_cases h : x = p <;> simp [fsUpdate, h]

theorem writeChunks_ok (path : String) :
    ∀ (chunks : List (Option String)) (fs : String → Option String) (s : String),
      fs path = some s → chunksErr chunks = none →
      (writeChunks path fs chunks).1 = fsUpdate fs path (s ++ concatChunks chunks) := by
  intro chunks
  induction chunks with
  | nil =>
    intro fs s hs _
    show fs = fsUpdate fs path (s ++ concatChunks [])
    funext x
    by_cases h : x = path
    · subst h
      simp [fsUpdate, hs, concatChunks]
    · simp [fsUpdate, h]
  | cons chunk rest ih =>
    intro fs s hs herr
    cases chunk with
    | none => exact absurd herr (by simp [chunksErr])
    | some c =>
      have herr' : chunksErr rest = none := by simpa [chunksErr] using herr
      show (writeChunks path (fsUpdate fs path (((fs path).getD "") ++ c)) rest).1 = _
      rw [hs]
      have hstep := ih (fsUpdate fs path (s ++ c)) (s ++ c)
        (fsUpdate_same fs path (s ++ c)) herr'
      show (writeChunks path (fsUpdate fs path (s ++ c)) rest).1 = _
      rw [hstep, fsUpdate_collapse]
      have hval : s ++ concatChunks (some c :: rest) = s ++ c ++ concatChunks rest := by
        show s ++ ((some c).getD "" ++ concatChunks rest) = s ++ c ++ concatChunks rest
        simp [String.append_assoc]
      rw [hval]

theorem titleResult_abs (env : Env) (l : String) (t : String)
    (ht : titleResult env l = .ok t) : strIn "abs" l = true := by
  by_cases h : strIn "abs" l = true
  · exact h
  · rw [titleResult, if_neg h] at ht
    cases ht

theorem download_ok_shape (env : Env) (st : St) (l t : String) (resp : PdfResp)
    (ht : titleResult env l = .ok t)
    (hr : env.pdfResp (pyReplace l "abs" "pdf") = some resp)
    (hs : resp.status = 200) (hc : chunksErr resp.chunks = none) :
    (download_arvix_pdf env st l).2 = .ok true ∧
      (download_arvix_pdf env st l).1.fs =
        fsUpdate st.fs (env.pdf_folder ++ "/" ++ t ++ ".pdf")
          (concatChunks resp.chunks) := by
  have habs : strIn "abs" l = true := titleResult_abs env l t ht
  unfold download_arvix_pdf
  simp only [get_arvix_title_eq, writeChunks_snd]
  rw [if_pos habs, ht]
  simp only []
  rw [hr]
  simp only []
  rw [if_pos hs, hc]
  simp only []
  refine ⟨by simp, ?_⟩
  · show (writeChunks (env.pdf_folder ++ "/" ++ t ++ ".pdf")
        (fsUpdate st.fs (env.pdf_folder ++ "/" ++ t ++ ".pdf") "")
        resp.chunks).1 = _
    rw [writeChunks_ok (env.pdf_folder ++ "/" ++ t ++ ".pdf") resp.chunks _ ""
        (fsUpdate_same _ _ _) hc, fsUpdate_collapse]
    congr 1

theorem download_fail_shape (env : Env) (st : St) (l t : String) (resp : PdfResp)
    (ht : titleResult env l = .ok t)
    (hr : env.pdfResp (pyReplace l "abs" "pdf") = some resp)
    (hs : resp.status ≠ 200) :
    (download_arvix_pdf env st l).2 = .ok false ∧
      (download_arvix_pdf env st l).1.fs = st.fs := by
  have habs : strIn "abs" l = true := titleResult_abs env l t ht
  unfold download_arvix_pdf
  simp only [get_arvix_title_eq, writeChunks_snd]
  rw [if_pos habs, ht]
  simp only []
  rw [hr]
  simp only []
  rw [if_neg hs]
  exact ⟨rfl, rfl⟩

theorem download_exn_shape (env : Env) (st : St) (l t : String)
    (ht : titleResult env l = .ok t)
    (hr : env.pdfResp (pyReplace l "abs" "pdf") = none) :
    (download_arvix_pdf env st l).2 = .error .requestException ∧
      (download_arvix_pdf env st l).1.fs = st.fs := by
  have habs : strIn "abs" l = true := titleResult_abs env l t ht
  unfold download_arvix_pdf
  simp only [get_arvix_title_eq, writeChunks_snd]
  rw [if_pos habs, ht]
  simp only []
  rw [hr]
  exact ⟨rfl, rfl⟩

/-! ### Concrete scenario environments -/

/-- Candidate link A of the concrete scenarios. -/
def linkA : String := "https://arxiv.org/abs/1111"

/-- Candidate link B of the concrete scenarios. -/
def linkB : String := "https://arxiv.org/abs/2222"

/-- Candidate link C of the concrete scenarios. -/
def linkC : String := "https://arxiv.org/abs/3333"

/-- Partial-failure environment: the feed yields linkA and linkB, title
resolution succeeds for both, linkA's pdf download returns status 200 and
linkB's returns status 404. -/
def envAB : Env where
  feed := [[linkA], [linkB]]
  titlePage := fun u =>
    if u = linkA then some (200, some "TA")
    else if u = linkB then some (200, some "TB")
    else none
  pdfResp := fun u =>
    if u = "https://arxiv.org/pdf/1111" then some ⟨200, [some "PA"]⟩
    else if u = "https://arxiv.org/pdf/2222" then some ⟨404, []⟩
    else none
  pdf_folder := "pdfs"

/-! ### Claim C2: crash safety of persistence -/

/-- C2 counterexample: save_cache writes in place, so the crash state
after open(CACHE_PATH, "wb") has truncated the file: this on-disk state is
neither the old record, nor the new record, nor an absent file. -/
theorem c2_counterexample :
    CacheDisk.truncated ∈
      save_cache_crash_states (.record [linkA]) [linkA, linkB] ∧
      CacheDisk.truncated ≠ .record [linkA] ∧
      CacheDisk.truncated ≠ .record [linkA, linkB] ∧
      CacheDisk.truncated ≠ .absent := by
  decide

/-- C2 amended: persistence is not atomic.  save_cache opens the cache
file for writing, which truncates it, and then dumps the new record in
place, so an interruption during persistence leaves the on-disk record as
the complete old version, the complete new version, or a truncated file;
a truncated record makes the next run's load raise instead of silently
proceeding. -/
theorem c2_amended (old : CacheDisk) (s : List String) (d : CacheDisk)
    (hd : d ∈ save_cache_crash_states old s) :
    (d = old ∨ d = .truncated ∨ d = .record s) ∧
      read_cache CacheDisk.truncated = .error .unpicklingError := by
  refine ⟨?_, rfl⟩
  simp only [save_cache_crash_states, List.mem_cons, List.mem_singleton,
    List.not_mem_nil] at hd
  tauto

/-- C2 witness: the amended theorem applied to the concrete interrupted
write of c2_counterexample. -/
theorem c2_witness :
    (CacheDisk.truncated = .record [linkA] ∨
      CacheDisk.truncated = .truncated ∨
      CacheDisk.truncated = .record [linkA, linkB]) ∧
      read_cache CacheDisk.truncated = .error .unpicklingError :=
  c2_amended (.record [linkA]) [linkA, linkB] .truncated (by decide)

/-! ### Claim C7: the resolver precondition is violated by the extractor -/

/-- Healthy-network environment: every title page and every pdf request
would succeed. -/
def envPlain : Env where
  feed := [["https://arxiv.org/1807.03341"]]
  titlePage := fun _ => some (200, some "T")
  pdfResp := fun _ => some ⟨200, [some "X"]⟩
  pdf_folder := "pdfs"

/-- C7: the extractor output is not always in abstract-page form.  The
URL https://arxiv.org/1807.03341 contains arxiv but no pdf marker, so
parse_urls returns it verbatim without abs; main then passes it to the
resolver, whose assert "abs" in arvix_link fails before any network call,
and the AssertionError aborts the whole run with nothing persisted, even
with a fully healthy network. -/
theorem c7_assertion_reachable :
    "https://arxiv.org/1807.03341" ∈
      parse_urls ["https://arxiv.org/1807.03341"] ∧
      strIn "abs" "https://arxiv.org/1807.03341" = false ∧
      (download_arvix_pdf envPlain st0 "https://arxiv.org/1807.03341").2 =
        .error .assertionError ∧
      (download_arvix_pdf envPlain st0 "https://arxiv.org/1807.03341").1.log = [] ∧
      (main' envPlain st0 .absent).2.2 = .error .assertionError ∧
      (main' envPlain st0 .absent).2.1 = .absent := by
  refine ⟨by decide, by decide, rfl, rfl, rfl, by decide⟩

/-! ### Claims C8 and C9: filesystem effects of the downloader -/

/-- Mid-stream failure environment: linkC's pdf request answers 200 and
yields one chunk, then raises while streaming. -/
def envC8 : Env where
  feed := [[linkC]]
  titlePage := fun u => if u = linkC then some (200, some "TC") else none
  pdfResp := fun u =>
    if u = "https://arxiv.org/pdf/3333" then some ⟨200, [some "AB", none]⟩
    else none
  pdf_folder := "pdfs"

/-- Transport-failure-at-request environment: every title resolves, every
pdf request raises. -/
def envNoPdf : Env where
  feed := []
  titlePage := fun _ => some (200, some "T")
  pdfResp := fun _ => none
  pdf_folder := "pdfs"

/-- C8 counterexample: a transport failure raised while streaming the
body, after status 200 was received, leaves a partially written file at
the destination path even though the attempt reports a raised error. -/
theorem c8_counterexample :
    (download_arvix_pdf envC8 st0 linkC).2 = .error .requestException ∧
      (download_arvix_pdf envC8 st0 linkC).1.fs "pdfs/TC.pdf" = some "AB" :=
  ⟨rfl, rfl⟩

/-- C8 amended: on a non-success status code the downloader reports
failure (returns False) and performs no write at all, and a transport
failure raised by the request itself also leaves the filesystem
untouched; a transport failure raised while streaming the body, however,
leaves a partially written file at the destination (c8_counterexample). -/
theorem c8_amended :
    (∀ (env : Env) (st : St) (l t : String) (resp : PdfResp),
        titleResult env l = .ok t →
        env.pdfResp (pyReplace l "abs" "pdf") = some resp →
        resp.status ≠ 200 →
        (download_arvix_pdf env st l).2 = .ok false ∧
          (download_arvix_pdf env st l).1.fs = st.fs)
    ∧ (∀ (env : Env) (st : St) (l t : String),
        titleResult env l = .ok t →
        env.pdfResp (pyReplace l "abs" "pdf") = none →
        (download_arvix_pdf env st l).2 = .error .requestException ∧
          (download_arvix_pdf env st l).1.fs = st.fs) :=
  ⟨fun env st l t resp ht hr hs => download_fail_shape env st l t resp ht hr hs,
    fun env st l t ht hr => download_exn_shape env st l t ht hr⟩

/-- C8 witness: the amended theorem applied to linkB of envAB (status
404, no write) and to linkC of envNoPdf (request raises, no write). -/
theorem c8_witness :
    ((download_arvix_pdf envAB st0 linkB).2 = .ok false ∧
      (download_arvix_pdf envAB st0 linkB).1.fs = st0.fs) ∧
    ((download_arvix_pdf envNoPdf st0 linkC).2 = .error .requestException ∧
      (download_arvix_pdf envNoPdf st0 linkC).1.fs = st0.fs) :=
  ⟨c8_amended.1 envAB st0 linkB "TB" ⟨404, []⟩ rfl rfl (by decide),
    c8_amended.2 envNoPdf st0 linkC "T" rfl rfl⟩

/-- Unsanitized-title environment: linkC resolves to the title a/b, which
contains a path separator, and its pdf download succeeds with body Z. -/
def envC9 : Env where
  feed := [[linkC]]
  titlePage := fun u => if u = linkC then some (200, some "a/b") else none
  pdfResp := fun u =>
    if u = "https://arxiv.org/pdf/3333" then some ⟨200, [some "Z"]⟩
    else none
  pdf_folder := "pdfs"

/-- C9 counterexample: the resolved title is used verbatim in the file
path with no character sanitization: when the title is a/b the artifact
is written at pdfs/a/b.pdf, path separator included, and no file with the
separator removed or replaced is created. -/
theorem c9_counterexample :
    (download_arvix_pdf envC9 st0 linkC).2 = .ok true ∧
      (download_arvix_pdf envC9 st0 linkC).1.fs "pdfs/a/b.pdf" = some "Z" ∧
      (download_arvix_pdf envC9 st0 linkC).1.fs "pdfs/ab.pdf" = none ∧
      (download_arvix_pdf envC9 st0 linkC).1.fs "pdfs/a_b.pdf" = none :=
  ⟨rfl, rfl, rfl, rfl⟩

/-- C9 amended: for every successful download exactly one artifact file
is written, at the path pdf_folder/title.pdf where the resolved title is
used verbatim (no characters removed or replaced), and its content is the
full streamed body. -/
theorem c9_amended (env : Env) (st : St) (l t : String) (resp : PdfResp)
    (ht : titleResult env l = .ok t)
    (hr : env.pdfResp (pyReplace l "abs" "pdf") = some resp)
    (hs : resp.status = 200) (hc : chunksErr resp.chunks = none) :
    (download_arvix_pdf env st l).2 = .ok true ∧
      (download_arvix_pdf env st l).1.fs =
        fsUpdate st.fs (env.pdf_folder ++ "/" ++ t ++ ".pdf")
          (concatChunks resp.chunks) :=
  download_ok_shape env st l t resp ht hr hs hc

/-- C9 witness: the amended theorem applied to envC9, where the title
a/b is embedded verbatim in the written path. -/
theorem c9_witness :
    (download_arvix_pdf envC9 st0 linkC).2 = .ok true ∧
      (download_arvix_pdf envC9 st0 linkC).1.fs =
        fsUpdate st0.fs (envC9.pdf_folder ++ "/" ++ "a/b" ++ ".pdf")
          (concatChunks [some "Z"]) :=
  c9_amended envC9 st0 linkC "a/b" ⟨200, [some "Z"]⟩ rfl rfl rfl rfl

/-! ### Claim C3: effect of per-link failures on the rest of the run -/

/-- Abort scenario: the feed yields linkA, linkB and linkC in that order;
linkA's download succeeds, linkB's title request raises a transport
error, and linkC would succeed but is reached only if the run survives
linkB. -/
def envABC : Env where
  feed := [[linkA], [linkB], [linkC]]
  titlePage := fun u =>
    if u = linkA then some (200, some "TA")
    else if u = linkC then some (200, some "TC")
    else none
  pdfResp := fun u =>
    if u = "https://arxiv.org/pdf/1111" then some ⟨200, [some "PA"]⟩
    else if u = "https://arxiv.org/pdf/3333" then some ⟨200, [some "PC"]⟩
    else none
  pdf_folder := "pdfs"

/-- C3 counterexample: a request failure during title resolution is not
recovered.  In envABC, linkA succeeds, then linkB's resolve raises: the
exception aborts the run, linkC (a remaining candidate) is never
attempted, save_cache is never reached and the on-disk record stays
absent, losing linkA's recorded success. -/
theorem c3_counterexample :
    attemptResult envABC linkA = .ok true ∧
      attemptResult envABC linkB = .error .requestException ∧
      attemptResult envABC linkC = .ok true ∧
      linkC ∈ newLinks envABC [] ∧
      (main' envABC st0 .absent).2.2 = .error .requestException ∧
      (main' envABC st0 .absent).2.1 = .absent ∧
      (main' envABC st0 .absent).1.attempts = [linkA, linkB] := by
  refine ⟨rfl, rfl, rfl, by decide, rfl, by decide, by decide⟩

/-- C3 amended: only a reported failure is recovered.  When every new
candidate's attempt returns without raising (ok true or ok false), the
loop attempts every candidate, a reported failure leaves its link out and
processing continues, and the run completes with every success persisted;
but when an attempt raises (transport failure or missing title markup),
the exception aborts the loop at that link: the remaining candidates are
not attempted and nothing is persisted. -/
theorem c3_amended :
    (∀ (env : Env) (st : St) (cached links : List String),
        (∀ l ∈ links, ∃ b, attemptResult env l = .ok b) →
        (∃ final, (mainLoop env st cached links).2 = .ok final) ∧
          (mainLoop env st cached links).1.attempts = st.attempts ++ links)
    ∧ (∀ (env : Env) (st : St) (cached : List String) (l : String)
          (rest : List String) (e : Exn),
        attemptResult env l = .error e →
        (mainLoop env st cached (l :: rest)).2 = .error e ∧
          (mainLoop env st cached (l :: rest)).1.attempts = st.attempts ++ [l])
    ∧ (∀ (env : Env) (st : St) (disk : CacheDisk) (loaded : List String),
        read_cache disk = .ok loaded →
        (∀ l ∈ newLinks env loaded, ∃ b, attemptResult env l = .ok b) →
        (main' env st disk).2.2 = .ok () ∧
          ∃ final, (main' env st disk).2.1 = .record final ∧
            ∀ l ∈ newLinks env loaded, attemptResult env l = .ok true → l ∈ final) := by
  refine ⟨?_, ?_, ?_⟩
  · intro env st cached links hall
    exact ⟨mainLoop_ok_of_all env links st cached hall,
      mainLoop_attempts_of_all env links st cached hall⟩
  · intro env st cached l rest e hA
    exact mainLoop_error_head env st cached l rest e hA
  · intro env st disk loaded hload hall
    obtain ⟨final, hfin⟩ := mainLoop_ok_of_all env (newLinks env loaded) st loaded hall
    rcases hm : mainLoop env st loaded (newLinks env loaded) with ⟨st1, r⟩
    rw [hm] at hfin
    simp only [] at hfin
    subst hfin
    have hmem := mainLoop_ok_mem env (newLinks env loaded) st loaded final (by rw [hm])
    unfold main'
    rw [hload]
    simp only []
    rw [hm]
    exact ⟨rfl, final, rfl, fun l hl hT => (hmem l).mpr (Or.inr ⟨hl, hT⟩)⟩

/-- C3 witness: the amended theorem applied concretely: envAB (one
reported failure, run completes and persists), envABC (a raised resolve
error aborts at linkB), and the completed envAB run at the main level. -/
theorem c3_witness :
    ((∃ final, (mainLoop envAB st0 [] [linkA, linkB]).2 = .ok final) ∧
      (mainLoop envAB st0 [] [linkA, linkB]).1.attempts =
        st0.attempts ++ [linkA, linkB]) ∧
    ((mainLoop envABC st0 [] (linkB :: [linkC])).2 = .error .requestException ∧
      (mainLoop envABC st0 [] (linkB :: [linkC])).1.attempts =
        st0.attempts ++ [linkB]) ∧
    ((main' envAB st0 .absent).2.2 = .ok () ∧
      ∃ final, (main' envAB st0 .absent).2.1 = .record final ∧
        ∀ l ∈ newLinks envAB [], attemptResult envAB l = .ok true → l ∈ final) := by
  refine ⟨c3_amended.1 envAB st0 [] [linkA, linkB] ?_,
    c3_amended.2.1 envABC st0 [] linkB [linkC] .requestException rfl,
    c3_amended.2.2 envAB st0 .absent [] rfl ?_⟩
  · intro l hl
    fin_cases hl
    · exact ⟨true, rfl⟩
    · exact ⟨false, rfl⟩
  · intro l hl
    rw [show newLinks envAB [] = [linkA, linkB] from by decide] at hl
    fin_cases hl
    · exact ⟨true, rfl⟩
    · exact ⟨false, rfl⟩

/-! ### Claim C4: the second run of an all-success harvest is silent -/

/-- C4: after a completed run in which every new candidate's download
succeeded, running main again with the unchanged feed performs zero
downloads: every recent link is in the persisted set, the set difference
is empty, and the second run issues no network call and no download
attempt. -/
theorem c4_second_run (env : Env) (st : St) (disk : CacheDisk)
    (loaded : List String) (hload : read_cache disk = .ok loaded)
    (hall : ∀ l ∈ newLinks env loaded, attemptResult env l = .ok true) :
    (main' env st disk).2.2 = .ok () ∧
      (∀ final, (main' env st disk).2.1 = .record final →
        newLinks env final = []) ∧
      (main' env (main' env st disk).1 (main' env st disk).2.1).1.log =
        (main' env st disk).1.log ∧
      (main' env (main' env st disk).1 (main' env st disk).2.1).1.attempts =
        (main' env st disk).1.attempts := by
  have hallb : ∀ l ∈ newLinks env loaded, ∃ b, attemptResult env l = .ok b :=
    fun l hl => ⟨true, hall l hl⟩
  obtain ⟨final, hfin⟩ := mainLoop_ok_of_all env (newLinks env loaded) st loaded hallb
  rcases hm : mainLoop env st loaded (newLinks env loaded) with ⟨st1, r⟩
  rw [hm] at hfin
  simp only [] at hfin
  subst hfin
  have hmem := mainLoop_ok_mem env (newLinks env loaded) st loaded final (by rw [hm])
  have hmain : main' env st disk = (st1, .record final, .ok ()) := by
    unfold main'
    rw [hload]
    simp only []
    rw [hm]
    rfl
  have hsub : ∀ u ∈ get_tweets env.feed, u ∈ final := by
    intro u hu
    by_cases hc : u ∈ loaded
    · exact (hmem u).mpr (Or.inl hc)
    · have hnew : u ∈ newLinks env loaded := by
        simp [newLinks, List.mem_filter, hu, hc]
      exact (hmem u).mpr (Or.inr ⟨hnew, hall u hnew⟩)
  have hnil : newLinks env final = [] := by
    rw [newLinks, List.filter_eq_nil_iff]
    intro a ha
    simp [hsub a ha]
  have hmain2 : main' env st1 (.record final) = (st1, .record final, .ok ()) := by
    unfold main'
    rw [show read_cache (CacheDisk.record final) = Except.ok final from rfl]
    simp only []
    rw [hnil]
    rfl
  simp only [hmain]
  simp only [hmain2]
  refine ⟨trivial, ?_, trivial, trivial⟩
  intro final' hf
  injection hf with h
  exact h ▸ hnil

/-- All-success environment: the feed yields linkA and linkB and both
downloads succeed. -/
def envAll : Env where
  feed := [[linkA], [linkB]]
  titlePage := fun u =>
    if u = linkA then some (200, some "TA")
    else if u = linkB then some (200, some "TB")
    else none
  pdfResp := fun u =>
    if u = "https://arxiv.org/pdf/1111" then some ⟨200, [some "PA"]⟩
    else if u = "https://arxiv.org/pdf/2222" then some ⟨200, [some "PB"]⟩
    else none
  pdf_folder := "pdfs"

/-- C4 witness: the theorem applied to envAll starting from an absent
record. -/
theorem c4_witness :
    (main' envAll st0 .absent).2.2 = .ok () ∧
      (∀ final, (main' envAll st0 .absent).2.1 = .record final →
        newLinks envAll final = []) ∧
      (main' envAll (main' envAll st0 .absent).1
          (main' envAll st0 .absent).2.1).1.log =
        (main' envAll st0 .absent).1.log ∧
      (main' envAll (main' envAll st0 .absent).1
          (main' envAll st0 .absent).2.1).1.attempts =
        (main' envAll st0 .absent).1.attempts := by
  apply c4_second_run envAll st0 .absent [] rfl
  intro l hl
  rw [show newLinks envAll [] = [linkA, linkB] from by decide] at hl
  fin_cases hl
  · rfl
  · rfl

/-! ### Claim C1: membership in the persisted record -/

/-- C1: for every run of main that completes, a candidate link is in the
persisted record exactly when it was already in the loaded set or its
download during this run reported success; in the concrete scenario with
new candidates linkA and linkB where linkB's download fails, the
persisted set gains exactly linkA, and the second run with the unchanged
feed attempts only linkB again. -/
theorem c1_persisted_iff (env : Env) (st : St) (disk : CacheDisk)
    (h : (main' env st disk).2.2 = .ok ()) :
    (∃ loaded, read_cache disk = .ok loaded ∧
      ∃ final, (main' env st disk).2.1 = .record final ∧
        ∀ x : String, x ∈ final ↔
          x ∈ loaded ∨ (x ∈ newLinks env loaded ∧ attemptResult env x = .ok true))
    ∧ (main' envAB st0 .absent).2.1 = .record [linkA]
    ∧ (main' envAB (main' envAB st0 .absent).1
          (main' envAB st0 .absent).2.1).1.attempts =
        (main' envAB st0 .absent).1.attempts ++ [linkB] := by
  refine ⟨?_, by decide, by decide⟩
  cases hload : read_cache disk with
  | error e =>
    unfold main' at h
    rw [hload] at h
    simp at h
  | ok loaded =>
    refine ⟨loaded, rfl, ?_⟩
    unfold main' at h ⊢
    rw [hload] at h ⊢
    simp only [] at h ⊢
    rcases hm : mainLoop env st loaded (newLinks env loaded) with ⟨st1, r⟩
    cases r with
    | error e =>
      rw [hm] at h
      exact Except.noConfusion h
    | ok final =>
      exact ⟨final, rfl,
        fun x => mainLoop_ok_mem env (newLinks env loaded) st loaded final
          (by rw [hm]) x⟩

/-- C1 witness: the theorem applied to the concrete partial-failure run
of envAB from an absent record. -/
theorem c1_witness :
    (∃ loaded, read_cache CacheDisk.absent = .ok loaded ∧
      ∃ final, (main' envAB st0 .absent).2.1 = .record final ∧
        ∀ x : String, x ∈ final ↔
          x ∈ loaded ∨
            (x ∈ newLinks envAB loaded ∧ attemptResult envAB x = .ok true))
    ∧ (main' envAB st0 .absent).2.1 = .record [linkA]
    ∧ (main' envAB (main' envAB st0 .absent).1
          (main' envAB st0 .absent).2.1).1.attempts =
        (main' envAB st0 .absent).1.attempts ++ [linkB] :=
  c1_persisted_iff envAB st0 .absent rfl
